import Mathlib

/-!
Verification development for the MBA2C imagination-augmented-agent repository.

The two Python source files are shallowly embedded:
  * `Agent` embeds the codec of `imagination_augmented_agent.py`
    (palette `pixels`, `pixel_to_onehot`, `pix_to_target`, `target_to_pix`);
  * `PacmanUtil` embeds the codec of `pacman_util.py`;
  * tensors are embedded as a shape (list of dimension sizes) together with a
    flat row-major buffer, given as a function from flat index to rational
    value, matching the contiguous-memory semantics of the tensor library
    (a `view` changes only the shape, `cat` interleaves blocks, and so on);
  * `ICore` and `ICore.call` embed `ImaginationCore.__call__`;
  * `I2ANet` and `I2ANet.forward` embed `I2A.forward`, with the learned
    subnetworks (convolutional features, rollout encoder, fully connected
    fusion, actor and critic heads) as function-valued parameters, since
    their weights are parameters of the program;
  * a shape-level semantics (`conv2dS`, `linearS`, `gruFinalS`, ...) embeds
    the layer shape contracts for the network shape law;
  * a flag-level semantics (`GFlag`, `gImaginationCall`) embeds the autograd
    tracking boundary of the imagination loop.

The environment model (`common/environment_model.py`) and the distillation
policy (`common/actor_critic.py`) are not part of the given sources; they are
modelled from the spec as opaque function parameters, constrained only by the
spec's interface: the environment model returns per-cell categorical logits
over the fixed pixel palette and per-batch-element logits over the reward set.

Pixel components are embedded as rationals.  `np.round` rounds half to even
(`npRound`), `np.ceil` is the ceiling (`npCeil`).  Python float equality on
the values that occur here coincides with rational equality.
-/

/-- Rounding half to even, as numpy's round does. -/
def npRound (q : ℚ) : ℚ :=
  let f : ℤ := ⌊q⌋
  let r : ℚ := q - (f : ℚ)
  if r < 1/2 then (f : ℚ)
  else if 1/2 < r then (f : ℚ) + 1
  else if f % 2 = 0 then (f : ℚ) else (f : ℚ) + 1

/-- Ceiling, as numpy's ceil does. -/
def npCeil (q : ℚ) : ℚ := (⌈q⌉ : ℚ)

/-- Traversal of a list under an option-producing function; `none` as soon as
one element fails.  This is the embedding of the Python loops that append one
encoded value per element and raise a `KeyError` on the first missing key. -/
def traverseOpt (f : α → Option β) : List α → Option (List β)
  | [] => some []
  | a :: as =>
    match f a, traverseOpt f as with
    | some b, some bs => some (b :: bs)
    | _, _ => none

/-- First index of `p` in `l`, the embedding of a Python dict lookup in a
dict built by enumerating a duplicate-free list. -/
def lookupIdx (l : List (ℚ × ℚ × ℚ)) (p : ℚ × ℚ × ℚ) : Option ℕ :=
  match l with
  | [] => none
  | a :: as => if a = p then some 0 else (lookupIdx as p).map (· + 1)

/-- A tensor: a shape together with a flat row-major buffer given as a
function from flat index to value.  Entries beyond the shape's extent are
irrelevant to every operation below. -/
structure Tensor where
  shape : List ℕ
  f : ℕ → ℚ

/-- Build a tensor from an explicit list of entries (missing entries are 0). -/
def tensorOfList (s : List ℕ) (l : List ℚ) : Tensor :=
  ⟨s, fun i => l.getD i 0⟩

namespace Agent

/-- Palette of `imagination_augmented_agent.py` (line 24), in source order. -/
def pixels : List (ℚ × ℚ × ℚ) :=
  [(0, 1, 0), (0, 1, 1), (0, 0, 1), (1, 1, 1), (1, 1, 0), (0, 0, 0), (1, 0, 0)]

/-- The dict `pixel_to_onehot = {pix: i for i, pix in enumerate(pixels)}`. -/
def pixel_to_onehot (p : ℚ × ℚ × ℚ) : Option ℕ := lookupIdx pixels p

/-- Number of palette entries (`num_pixels = len(pixels)`). -/
def num_pixels : ℕ := pixels.length

/-- Componentwise `np.round` of a pixel. -/
def roundPixel (p : ℚ × ℚ × ℚ) : ℚ × ℚ × ℚ :=
  (npRound p.1, npRound p.2.1, npRound p.2.2)

/-- The pixel traversal of `next_states.transpose(0, 2, 3, 1).reshape(-1, 3)`
on an `(n, 3, h, w)` tensor: for each flat `(n, h, w)` position in row-major
order, the triple of the three channel values at that spatial position. -/
def nchwPixelList (t : Tensor) : List (ℚ × ℚ × ℚ) :=
  match t.shape with
  | [_n, 3, h, w] =>
    (List.range (t.shape.headD 0 * h * w)).map (fun j =>
      let i := j / (h * w)
      let r := j % (h * w)
      let y := r / w
      let x := r % w
      (t.f (((i * 3 + 0) * h + y) * w + x),
       t.f (((i * 3 + 1) * h + y) * w + x),
       t.f (((i * 3 + 2) * h + y) * w + x)))
  | _ => []

/-- `pix_to_target` of `imagination_augmented_agent.py` (line 45): round each
component of each pixel and look the triple up in `pixel_to_onehot`; the
`KeyError` raised on a missing key is the `none` outcome. -/
def pix_to_target (t : Tensor) : Option (List ℕ) :=
  match t.shape with
  | [_, 3, _, _] =>
    traverseOpt (fun p => pixel_to_onehot (roundPixel p)) (nchwPixelList t)
  | _ => none

/-- `target_to_pix` of `imagination_augmented_agent.py` (line 51): inverse
dict lookup, `KeyError` (here `none`) on an out-of-range category. -/
def target_to_pix (ts : List ℕ) : Option (List (ℚ × ℚ × ℚ)) :=
  traverseOpt (fun t => pixels.get? t) ts

end Agent

namespace PacmanUtil

/-- Palette of `pacman_util.py` (line 4).  Its first two entries are in the
opposite order to the palette of `imagination_augmented_agent.py`. -/
def pixels : List (ℚ × ℚ × ℚ) :=
  [(0, 1, 1), (0, 1, 0), (0, 0, 1), (1, 1, 1), (1, 1, 0), (0, 0, 0), (1, 0, 0)]

/-- The dict `pixel_to_categorical`. -/
def pixel_to_categorical (p : ℚ × ℚ × ℚ) : Option ℕ := lookupIdx pixels p

/-- Number of palette entries. -/
def num_pixels : ℕ := pixels.length

/-- Componentwise `np.ceil` of a pixel. -/
def ceilPixel (p : ℚ × ℚ × ℚ) : ℚ × ℚ × ℚ :=
  (npCeil p.1, npCeil p.2.1, npCeil p.2.2)

/-- `pix_to_target` of `pacman_util.py` (line 27) on the pixel sequence
`next_states.reshape(-1, 3)`: ceil each component and look the triple up. -/
def pix_to_target (ps : List (ℚ × ℚ × ℚ)) : Option (List ℕ) :=
  traverseOpt (fun p => pixel_to_categorical (ceilPixel p)) ps

/-- `target_to_pix` of `pacman_util.py` (line 35). -/
def target_to_pix (ts : List ℕ) : Option (List (ℚ × ℚ × ℚ)) :=
  traverseOpt (fun t => pixels.get? t) ts

end PacmanUtil

/-! ### Tensor operations used by `ImaginationCore.__call__` and `I2A.forward`

Each operation is the contiguous-memory semantics of the corresponding torch
operation, restricted to the way it is used in the source (the source always
calls them on shape-compatible arguments). -/

/-- Number of entries determined by a shape. -/
def numel (t : Tensor) : ℕ := t.shape.prod

/-- `t.size(0)`. -/
def size0 (t : Tensor) : ℕ := t.shape.headD 0

/-- `torch.ones(shape)`. -/
def onesT (s : List ℕ) : Tensor := ⟨s, fun _ => 1⟩

/-- `t.unsqueeze(0)`. -/
def unsqueeze0 (t : Tensor) : Tensor := ⟨1 :: t.shape, t.f⟩

/-- `t.repeat(k, 1, ..., 1)`: the leading dimension is repeated `k` times; on
a contiguous tensor this concatenates `k` copies of the buffer. -/
def repeat0 (k : ℕ) (t : Tensor) : Tensor :=
  ⟨k * t.shape.headD 0 :: t.shape.tail, fun i => t.f (i % numel t)⟩

/-- `t.view(s)` with every dimension given: succeeds iff the number of
entries matches; a view never moves data. -/
def viewAs (s : List ℕ) (t : Tensor) : Except String Tensor :=
  if s.prod = numel t then .ok ⟨s, t.f⟩ else .error "view: shape mismatch"

/-- `t.view(-1, *tail)`: the leading dimension is inferred. -/
def viewTail (tail : List ℕ) (t : Tensor) : Except String Tensor :=
  if 0 < tail.prod ∧ tail.prod ∣ numel t then
    .ok ⟨numel t / tail.prod :: tail, t.f⟩
  else .error "view: shape mismatch"

/-- `t.view(n, -1)`: the trailing dimension is inferred. -/
def viewLead (n : ℕ) (t : Tensor) : Except String Tensor :=
  if 0 < n ∧ n ∣ numel t then
    .ok ⟨[n, numel t / n], t.f⟩
  else .error "view: shape mismatch"

/-- `torch.cat([a, b], 1)`: per leading index, the block of `a` followed by
the block of `b`.  (The source only calls it on tensors agreeing in every
dimension but dimension 1.) -/
def cat1 (a b : Tensor) : Tensor :=
  let n := a.shape.headD 0
  let c1 := a.shape.tail.headD 0
  let c2 := b.shape.tail.headD 0
  let rest := a.shape.tail.tail
  let s := rest.prod
  ⟨n :: (c1 + c2) :: rest, fun i =>
    let blk := (c1 + c2) * s
    let n' := i / blk
    let r := i % blk
    if r < c1 * s then a.f (n' * (c1 * s) + r) else b.f (n' * (c2 * s) + (r - c1 * s))⟩

/-- `torch.cat(ts)` along dimension 0 on an accumulated list of per-step
tensors.  torch raises on an empty list; the per-step tensors all share one
shape by construction, which the embedding checks. -/
def cat0 (ts : List Tensor) : Except String Tensor :=
  match ts with
  | [] => .error "cat: empty list"
  | t :: _ =>
    if ts.all (fun u => u.shape = t.shape) then
      .ok ⟨ts.length * t.shape.headD 0 :: t.shape.tail,
           fun i => ((ts.get? (i / numel t)).getD t).f (i % numel t)⟩
    else .error "cat: shape mismatch"

/-- Index of the first maximal entry of a list. -/
def maxIdx : List ℚ → Option ℕ
  | [] => none
  | a :: rest =>
    match maxIdx rest with
    | none => some 0
    | some j => if a < rest.getD j 0 then some (j + 1) else some 0

/-- `F.softmax(t, dim=1).max(1)[1]` on a 2-D tensor of logits: the per-row
index of the maximal entry.  Softmax is strictly increasing in each entry, so
the arg-max of the softmax is the arg-max of the logits; softmax itself is
not rational-valued and is therefore not embedded separately. -/
def argmaxDim1 (t : Tensor) : Except String (List ℕ) :=
  match t.shape with
  | [m, k] =>
    if 0 < k then
      .ok ((List.range m).map (fun r =>
        (maxIdx ((List.range k).map (fun c => t.f (r * k + c)))).getD 0))
    else .error "argmax: empty category dimension"
  | _ => .error "argmax: expected a 2-D tensor"

/-- Row-major flattening of a list of RGB triples. -/
def flattenTriples (ps : List (ℚ × ℚ × ℚ)) : List ℚ :=
  ps.flatMap (fun p => [p.1, p.2.1, p.2.2])

/-- `torch.FloatTensor(np.array([[r, g, b], ...]))`: an `(M, 3)` tensor whose
buffer is the row-major flattening of the triples. -/
def tensorOfTriples (ps : List (ℚ × ℚ × ℚ)) : Tensor :=
  ⟨[ps.length, 3], fun i => (flattenTriples ps).getD i 0⟩

/-- The fancy-indexing assignment `z = torch.zeros(n, r);
z[range(n), idx] = 1`: row `m` carries a single 1 at column `idx m`.  torch
raises an index error when an index is out of range or the index list does
not have length `n`. -/
def scatterOnes (n r : ℕ) (idx : List ℕ) : Except String Tensor :=
  if idx.length = n ∧ idx.all (· < r) then
    .ok ⟨[n, r], fun i => if i % r = idx.getD (i / r) 0 then 1 else 0⟩
  else .error "index out of range"

/-! ### The embedding of `ImaginationCore` -/

/-- `ImaginationCore` (line 174): configuration and the two consumed models.
The environment model and the distillation policy live in `common/`, outside
the given sources; following the spec they are opaque function parameters.
The `DataParallel` wrapper around the environment model (line 180) is
semantics-preserving and is not represented. -/
structure ICore where
  num_rolouts : ℕ
  in_shape : List ℕ
  num_actions : ℕ
  num_rewards : ℕ
  env_model : Tensor → Tensor × Tensor
  distil_act : Tensor → List ℕ
  full_rollout : Bool

/-- `torch.LongTensor([[i] for i in range(num_actions)] * batch_size)`
(line 193), flattened to the list of action indices. -/
def initActions (numActions batchSize : ℕ) : List ℕ :=
  (List.replicate batchSize (List.range numActions)).flatten

/-- The tensor built at line 207: `torch.ones(rollout_batch_size,
num_actions, *in_shape[1:])`.  The original one-hot assignment
`onehot_action[range(rollout_batch_size), action] = 1` is commented out in
the source, so every action channel is all ones. -/
def stepOnehotAction (core : ICore) (n : ℕ) : Tensor :=
  onesT (n :: core.num_actions :: core.in_shape.tail)

/-- Line 215: `inputs = torch.cat([state, onehot_action], 1)`. -/
def stepInputs (core : ICore) (n : ℕ) (state : Tensor) : Tensor :=
  cat1 state (stepOnehotAction core n)

/-- The part of one loop iteration (lines 207-226) that produces the decoded
imagined state and the one-hot reward; it does not touch the distillation
policy. -/
def imStepCore (core : ICore) (n : ℕ) (state : Tensor) :
    Except String (Tensor × Tensor) := do
  let inputs := stepInputs core n state
  let modelOut := core.env_model inputs
  let stateLogits := modelOut.1
  let rewardLogits := modelOut.2
  let stateIdx ← argmaxDim1 stateLogits
  let rewardIdx ← argmaxDim1 rewardLogits
  let pix ← match Agent.target_to_pix stateIdx with
            | some ps => .ok ps
            | none => .error "KeyError: unknown category"
  let imagined_state ← viewAs (n :: core.in_shape) (tensorOfTriples pix)
  let onehot_reward ← scatterOnes n core.num_rewards rewardIdx
  .ok (imagined_state, onehot_reward)

/-- One full loop iteration (lines 207-233): decode, then choose the next
action with the distillation policy on the freshly imagined state. -/
def imStep (core : ICore) (n : ℕ) (state : Tensor) :
    Except String (Tensor × Tensor × List ℕ) := do
  let (imagined_state, onehot_reward) ← imStepCore core n state
  .ok (imagined_state, onehot_reward, core.distil_act imagined_state)

/-- The `for step in range(self.num_rolouts)` loop (line 202), carrying the
current state and current action and accumulating the per-step unsqueezed
states and rewards. -/
def imLoop (core : ICore) (n : ℕ) :
    ℕ → Tensor → List ℕ → List Tensor → List Tensor →
    Except String (List Tensor × List Tensor)
  | 0, _, _, ss, rs => .ok (ss.reverse, rs.reverse)
  | t + 1, state, _action, ss, rs => do
    let (imagined_state, onehot_reward, action) ← imStep core n state
    imLoop core n t imagined_state action
      (unsqueeze0 imagined_state :: ss) (unsqueeze0 onehot_reward :: rs)

/-- `ImaginationCore.__call__` (lines 184-235).  In full-rollout mode the
batch is expanded across all actions (lines 192-194) and the loop runs; in
reduced mode the distillation policy is consulted and then
`ValueError('CANNOT USE FULL ROLLOUT')` is raised (line 200) before any
imagination step. -/
def ICore.call (core : ICore) (state : Tensor) : Except String (Tensor × Tensor) :=
  let batch_size := size0 state
  if core.full_rollout then do
    let st ← viewTail core.in_shape (repeat0 core.num_actions (unsqueeze0 state))
    let action := initActions core.num_actions batch_size
    let rollout_batch_size := batch_size * core.num_actions
    let (rollout_states, rollout_rewards) ←
      imLoop core rollout_batch_size core.num_rolouts st action [] []
    let s ← cat0 rollout_states
    let r ← cat0 rollout_rewards
    .ok (s, r)
  else
    let _action := core.distil_act state
    .error "CANNOT USE FULL ROLLOUT"

/-! ### The embedding of `I2A.forward` -/

/-- `I2A` (line 119): the imagination core plus the learned subnetworks as
function-valued parameters (their weights are parameters of the program; each
subnetwork is a deterministic function of its input given fixed weights). -/
structure I2ANet where
  imagination : ICore
  features : Tensor → Tensor
  encoder : Tensor → Tensor → Tensor
  fc : Tensor → Tensor
  actor : Tensor → Tensor
  critic : Tensor → Tensor

/-- `I2A.forward` (lines 152-169). -/
def I2ANet.forward (net : I2ANet) (state : Tensor) : Except String (Tensor × Tensor) := do
  let batch_size := size0 state
  let (imagined_state, imagined_reward) ← net.imagination.call state
  let hidden := net.encoder imagined_state imagined_reward
  let hidden ← viewLead batch_size hidden
  let st := net.features state
  let st ← viewLead (size0 st) st
  let x := cat1 st hidden
  let x := net.fc x
  .ok (net.actor x, net.critic x)

/-! ### Shape-level semantics of the network layers

For the network shape law the layers are embedded by their torch shape
contracts: a `Conv2d` with kernel `k` and stride `s` maps height `h` to
`(h - k) / s + 1` and requires `k ≤ h`; a `Linear` requires its input width;
the `GRU` requires its input size and returns its final hidden state
(`hidden.squeeze(0)` of `I2A`'s single-layer, single-direction GRU). -/

/-- Shape contract of `nn.Conv2d(cin, cout, kernel_size=k, stride=s)`. -/
def conv2dS (cin cout k s : ℕ) (sh : List ℕ) : Option (List ℕ) :=
  match sh with
  | [n, c, h, w] =>
    if c = cin ∧ k ≤ h ∧ k ≤ w then
      some [n, cout, (h - k) / s + 1, (w - k) / s + 1]
    else none
  | _ => none

/-- Shape contract of the `self.features` stack shared by `I2A` and
`RolloutEncoder` (lines 94-99 and 129-134): `Conv2d(in_shape[0], 16, 3, 1)`,
`ReLU`, `Conv2d(16, 16, 3, 2)`, `ReLU`. -/
def featuresS (cin : ℕ) (sh : List ℕ) : Option (List ℕ) :=
  (conv2dS cin 16 3 1 sh).bind (conv2dS 16 16 3 2)

/-- `feature_size()` (lines 116-117 and 171-172): run `features` on
`zeros(1, *in_shape)` and flatten. -/
def featureSizeS (inShape : List ℕ) : Option ℕ :=
  (featuresS (inShape.headD 0) (1 :: inShape)).map (fun s => s.tail.prod)

/-- Shape contract of `nn.Linear(inF, outF)` on a 2-D input. -/
def linearS (inF outF : ℕ) (sh : List ℕ) : Option (List ℕ) :=
  match sh with
  | [n, f] => if f = inF then some [n, outF] else none
  | _ => none

/-- Shape contract of `_, hidden = nn.GRU(inSize, hid)(x)` followed by
`hidden.squeeze(0)` on a `(t, n, f)` sequence input. -/
def gruFinalS (inSize hid : ℕ) (sh : List ℕ) : Option (List ℕ) :=
  match sh with
  | [t, n, f] => if f = inSize ∧ 0 < t then some [n, hid] else none
  | _ => none

/-- Shape-level `view(-1, *tail)`. -/
def viewTailS (tail : List ℕ) (sh : List ℕ) : Option (List ℕ) :=
  if 0 < tail.prod ∧ tail.prod ∣ sh.prod then
    some (sh.prod / tail.prod :: tail)
  else none

/-- Shape-level `view(a, b, -1)`. -/
def viewSplitS (a b : ℕ) (sh : List ℕ) : Option (List ℕ) :=
  if 0 < a * b ∧ a * b ∣ sh.prod then some [a, b, sh.prod / (a * b)] else none

/-- Shape-level `view(a, -1)`. -/
def viewLeadS (a : ℕ) (sh : List ℕ) : Option (List ℕ) :=
  if 0 < a ∧ a ∣ sh.prod then some [a, sh.prod / a] else none

/-- Shape-level `view(s)` with every dimension given. -/
def viewAsS (s sh : List ℕ) : Option (List ℕ) :=
  if s.prod = sh.prod then some s else none

/-- Shape-level `torch.cat(-, 1)` on 4-D tensors. -/
def cat4S (x y : List ℕ) : Option (List ℕ) :=
  match x, y with
  | [n, c, h, w], [n2, c2, h2, w2] =>
    if n = n2 ∧ h = h2 ∧ w = w2 then some [n, c + c2, h, w] else none
  | _, _ => none

/-- Shape-level `torch.cat(-, 2)` on 3-D tensors. -/
def cat3S (x y : List ℕ) : Option (List ℕ) :=
  match x, y with
  | [t, n, a], [t2, n2, b] => if t = t2 ∧ n = n2 then some [t, n, a + b] else none
  | _, _ => none

/-- Shape-level `torch.cat(-, 1)` on 2-D tensors. -/
def cat2S (x y : List ℕ) : Option (List ℕ) :=
  match x, y with
  | [n, a], [n2, b] => if n = n2 then some [n, a + b] else none
  | _, _ => none

/-- Shape-level run of `ImaginationCore.__call__` in full-rollout mode, with
the environment model given by its spec interface shapes: per-cell logits
`(batch * h * w, num_pixels)` and per-element reward logits
`(batch, numRewards)`. -/
def imaginationShapeS (inShape : List ℕ) (numActions numRewards numRolouts : ℕ)
    (stateSh : List ℕ) : Option (List ℕ × List ℕ) := do
  let st ← viewTailS inShape (numActions :: stateSh)
  let n := st.headD 0
  let inputs ← cat4S st (n :: numActions :: inShape.tail)
  match inputs with
  | [n', _, h, w] =>
    -- spec interface shapes of the environment model output
    let _stateLogits := [n' * h * w, Agent.num_pixels]
    let _rewardLogits := [n', numRewards]
    -- the two arg-max reductions need nonempty category dimensions
    if 0 < Agent.num_pixels ∧ 0 < numRewards then
      let decoded := [n' * h * w, 3]
      let imag ← viewAsS (n' :: inShape) decoded
      let onehotR := [n', numRewards]
      -- `torch.cat` of the accumulated per-step tensors needs a nonempty list
      if 0 < numRolouts then
        return (numRolouts :: imag, numRolouts :: onehotR)
      else none
    else none
  | _ => none

/-- Shape-level run of `RolloutEncoder.forward` (lines 103-113). -/
def rolloutEncoderS (inShape : List ℕ) (numRewards hid : ℕ) (ss rs : List ℕ) :
    Option (List ℕ) := do
  match ss, rs with
  | [t, n, c, h, w], [t2, n2, r] =>
    let st1 ← viewTailS inShape [t, n, c, h, w]
    let st2 ← featuresS (inShape.headD 0) st1
    let st3 ← viewSplitS t n st2
    let rnnInput ← cat3S st3 [t2, n2, r]
    let fs ← featureSizeS inShape
    gruFinalS (fs + numRewards) hid rnnInput
  | _, _ => none

/-- Shape-level run of `I2A.forward` (lines 152-169) on a batch of size `b`,
in full-rollout mode (`fc` has input width
`feature_size() + num_actions * hidden_size`, line 140). -/
def i2aForwardS (inShape : List ℕ) (numActions numRewards hid numRolouts b : ℕ) :
    Option (List ℕ × List ℕ) := do
  let stateSh := b :: inShape
  let (ss, rs) ← imaginationShapeS inShape numActions numRewards numRolouts stateSh
  let hidden ← rolloutEncoderS inShape numRewards hid ss rs
  let hidden2 ← viewLeadS b hidden
  let f1 ← featuresS (inShape.headD 0) stateSh
  let f2 ← viewLeadS (f1.headD 0) f1
  let fs ← featureSizeS inShape
  let x ← cat2S f2 hidden2
  let x2 ← linearS (fs + numActions * hid) 256 x
  let logit ← linearS 256 numActions x2
  let value ← linearS 256 1 x2
  return (logit, value)

/-! ### Flag-level semantics of the autograd boundary

Each tensor is reduced to two flags: whether it is marked volatile (the old
torch no-gradient marker used throughout the source) and whether backward
from it would reach the environment model's parameters.  Every operation of
the imagination loop is translated flag-wise; the environment model and the
distillation policy parameters are threaded through untouched, mirroring that
`__call__` and `forward` assign only to locals. -/

structure GFlag where
  volatile : Bool
  envGraph : Bool

/-- A fresh tensor (`torch.ones`, `torch.zeros`, `torch.FloatTensor` of a
numpy array): not volatile, not connected to the environment model. -/
def gFresh : GFlag := ⟨false, false⟩

/-- `torch.cat`: the result belongs to every input's graph. -/
def gCat (a b : GFlag) : GFlag := ⟨a.volatile || b.volatile, a.envGraph || b.envGraph⟩

/-- `Variable(x, volatile=True)` (line 217). -/
def gVariableV (x : GFlag) : GFlag := ⟨true, x.envGraph⟩

/-- Applying the environment model: the output depends on the environment
model's parameters, and carries the input's volatile mark. -/
def gEnvApply (inp : GFlag) : GFlag := ⟨inp.volatile, true⟩

/-- `.data` (lines 219-220): a detached view, out of every autograd graph. -/
def gData (_ : GFlag) : GFlag := ⟨false, false⟩

/-- `target_to_pix(x.numpy())` then `torch.FloatTensor(...)` (lines
222-223): a fresh tensor built from the values of `x`; no autograd graph
crosses the numpy round trip. -/
def gFromNumpy (x : GFlag) : GFlag := ⟨false, (gData x).envGraph⟩

/-- Flag-level run of one loop iteration (lines 207-226): returns the
volatile flag of the tensor handed to the environment model, the flags of
the imagined state and those of the one-hot reward. -/
def gImStep (state : GFlag) : Bool × GFlag × GFlag :=
  let onehot_action := gFresh
  let inputs := gCat state onehot_action
  let query := gVariableV inputs
  let modelOut := gEnvApply query
  let imagined_idx := gData modelOut
  let imagined_state := gFromNumpy imagined_idx
  let onehot_reward := gFresh
  (query.volatile, imagined_state, onehot_reward)

/-- Flag-level run of the rollout loop: the volatile flags of the per-step
environment model queries and the flags of the accumulated outputs. -/
def gImLoop : ℕ → GFlag → List Bool × List GFlag × List GFlag
  | 0, _ => ([], [], [])
  | t + 1, state =>
    let (q, imagined_state, onehot_reward) := gImStep state
    let (qs, ss, rs) := gImLoop t imagined_state
    (q :: qs, imagined_state :: ss, onehot_reward :: rs)

/-- Flag-level run of `ImaginationCore.__call__` in full-rollout mode,
threading through the two consumed parameter sets, which no statement of
`__call__` (or of `I2A.forward`) assigns to. -/
def gImaginationCall {α β : Type} (envParams : α) (distilParams : β)
    (numRolouts : ℕ) (state : GFlag) :
    (α × β) × (List Bool × List GFlag × List GFlag) :=
  ((envParams, distilParams), gImLoop numRolouts state)

/-! ### Predicates and concrete instances used by the theorems -/

/-- The environment model interface of the spec, at the input shape the
imagination loop feeds it: on any `(n, cin, h, w)` tensor it returns per-cell
pixel-category logits of shape `(n * h * w, num_pixels)` and reward logits of
shape `(n, numRewards)`. -/
def ConformsTo (em : Tensor → Tensor × Tensor) (n cin h w numRewards : ℕ) : Prop :=
  ∀ t : Tensor, t.shape = [n, cin, h, w] →
    (em t).1.shape = [n * h * w, Agent.num_pixels] ∧ (em t).2.shape = [n, numRewards]

/-- Rows `m < n` of width `r` read off a flat buffer `f` are one-hot:
each has exactly one entry 1 and the rest 0. -/
def RewardRows (n r : ℕ) (f : ℕ → ℚ) : Prop :=
  ∀ m, m < n → ∃ c, c < r ∧ ∀ j, j < r → f (m * r + j) = if j = c then 1 else 0

/-! ### Concrete instances used by witnesses and counterexamples -/

/-- A concrete conforming environment model for rollout batch 2 on 1 by 1
observations with two reward categories: cell rows arg-max to categories 0
and 5, reward rows to 0 and 1. -/
def emW : Tensor → Tensor × Tensor := fun _ =>
  (tensorOfList [2, 7] [1, 0, 0, 0, 0, 0, 0, 0, 0, 0, 0, 0, 1, 0],
   tensorOfList [2, 2] [1, 0, 0, 1])

/-- A concrete all-zero real-state batch of shape `(1, 3, 1, 1)`. -/
def stateW : Tensor := tensorOfList [1, 3, 1, 1] [0, 0, 0]

/-- A concrete imagination core: depth 1, observation shape `(3, 1, 1)`,
2 actions, 2 reward categories, full-rollout mode. -/
def coreW : ICore := ⟨1, [3, 1, 1], 2, 2, emW, fun _ => [], true⟩

/-- The same configuration with `full_rollout=False`. -/
def core9 : ICore := ⟨1, [3, 1, 1], 2, 2, emW, fun _ => [], false⟩

/-- A concrete conforming environment model for rollout batch 1 on 1 by 3
observations with one reward category: the three cell rows arg-max to
categories 3, 5 and 3, that is to the palette tuples (1,1,1), (0,0,0) and
(1,1,1). -/
def em4 : Tensor → Tensor × Tensor := fun _ =>
  (tensorOfList [3, 7]
     [0, 0, 0, 1, 0, 0, 0,
      0, 0, 0, 0, 0, 1, 0,
      0, 0, 0, 1, 0, 0, 0],
   tensorOfList [1, 1] [1])

/-- A concrete all-zero real-state batch of shape `(1, 3, 1, 3)`. -/
def state4 : Tensor := tensorOfList [1, 3, 1, 3] []

/-- A concrete imagination core: depth 1, observation shape `(3, 1, 3)`,
1 action, 1 reward category, full-rollout mode. -/
def core4 : ICore := ⟨1, [3, 1, 3], 1, 1, em4, fun _ => [], true⟩

/-- The expansion of `stateW` across the two candidate actions, as built by
lines 192-194: shape `(2, 3, 1, 1)`, all zeros. -/
def stateWexp : Tensor := tensorOfList [2, 3, 1, 1] [0, 0, 0, 0, 0, 0]

/-- A concrete I2A network over `coreW`, with identity-like subnetworks. -/
def netW : I2ANet := ⟨coreW, id, fun s _ => s, id, id, id⟩

/-! ### Helper lemmas -/

theorem except_bind_ok {α β : Type} (a : α) (f : α → Except String β) :
    (Except.ok a : Except String α) >>= f = f a := rfl

theorem except_bind_err {α β : Type} (e : String) (f : α → Except String β) :
    (Except.error e : Except String α) >>= f = Except.error e := rfl

theorem lookupIdx_eq_none_iff (l : List (ℚ × ℚ × ℚ)) (p : ℚ × ℚ × ℚ) :
    lookupIdx l p = none ↔ p ∉ l := by
  induction l with
  | nil => simp [lookupIdx]
  | cons a as ih =>
    by_cases h : a = p
    · simp [lookupIdx, h]
    · simp [lookupIdx, h, ih, Ne.symm h]

theorem lookupIdx_some_lt (l : List (ℚ × ℚ × ℚ)) (p : ℚ × ℚ × ℚ) (i : ℕ)
    (h : lookupIdx l p = some i) : i < l.length := by
  induction l generalizing i with
  | nil => simp [lookupIdx] at h
  | cons a as ih =>
    by_cases ha : a = p
    · simp only [lookupIdx, if_pos ha, Option.some.injEq] at h
      simp [← h]
    · simp only [lookupIdx, if_neg ha, Option.map_eq_some'] at h
      obtain ⟨j, hj, rfl⟩ := h
      have := ih j hj
      simp only [List.length_cons]
      omega

theorem traverseOpt_eq_none_iff (f : α → Option β) (l : List α) :
    traverseOpt f l = none ↔ ∃ x ∈ l, f x = none := by
  induction l with
  | nil => simp [traverseOpt]
  | cons a as ih =>
    cases hfa : f a with
    | none =>
      simp only [traverseOpt, hfa]
      exact iff_of_true (by trivial) ⟨a, by simp, hfa⟩
    | some b =>
      cases hrec : traverseOpt f as with
      | none =>
        simp only [traverseOpt, hfa, hrec]
        refine iff_of_true (by trivial) ?_
        obtain ⟨x, hx, hfx⟩ := ih.mp hrec
        exact ⟨x, by simp [hx], hfx⟩
      | some bs =>
        simp only [traverseOpt, hfa, hrec]
        constructor
        · intro h; exact absurd h (by simp)
        · rintro ⟨x, hx, hfx⟩
          rcases List.mem_cons.mp hx with rfl | hx'
          · rw [hfa] at hfx; exact absurd hfx (by simp)
          · have : traverseOpt f as = none := ih.mpr ⟨x, hx', hfx⟩
            rw [hrec] at this; exact absurd this (by simp)

theorem traverseOpt_some_length (f : α → Option β) :
    ∀ (l : List α) (ys : List β), traverseOpt f l = some ys → ys.length = l.length := by
  intro l
  induction l with
  | nil => intro ys h; simp [traverseOpt] at h; simp [← h]
  | cons a as ih =>
    intro ys h
    cases hfa : f a with
    | none => rw [traverseOpt, hfa] at h; exact absurd h (by simp)
    | some b =>
      cases hrec : traverseOpt f as with
      | none => rw [traverseOpt, hfa, hrec] at h; exact absurd h (by simp)
      | some bs =>
        rw [traverseOpt, hfa, hrec] at h
        cases h
        simpa using ih bs hrec

theorem traverseOpt_ok {f : α → Option β} {P : β → Prop} :
    ∀ {l : List α}, (∀ x ∈ l, ∃ y, f x = some y ∧ P y) →
    ∃ ys, traverseOpt f l = some ys ∧ ys.length = l.length ∧ ∀ y ∈ ys, P y := by
  intro l
  induction l with
  | nil => intro _; exact ⟨[], rfl, rfl, by simp⟩
  | cons a as ih =>
    intro h
    obtain ⟨y, hy, hPy⟩ := h a (by simp)
    obtain ⟨ys, hys, hlen, hall⟩ := ih (fun x hx => h x (by simp [hx]))
    refine ⟨y :: ys, ?_, by simp [hlen], ?_⟩
    · rw [traverseOpt, hy, hys]
    · intro z hz
      rcases List.mem_cons.mp hz with rfl | hz'
      · exact hPy
      · exact hall z hz'

theorem getD_cases (l : List ℚ) (i : ℕ) (d : ℚ) : l.getD i d ∈ l ∨ l.getD i d = d := by
  by_cases h : i < l.length
  · left
    rw [List.getD_eq_getElem l d h]
    exact List.getElem_mem h
  · right
    rw [List.getD_eq_default l d (by omega)]

theorem getD_nat_cases (l : List ℕ) (i : ℕ) (d : ℕ) : l.getD i d ∈ l ∨ l.getD i d = d := by
  by_cases h : i < l.length
  · left
    rw [List.getD_eq_getElem l d h]
    exact List.getElem_mem h
  · right
    rw [List.getD_eq_default l d (by omega)]

theorem maxIdx_lt_length : ∀ (l : List ℚ) (i : ℕ), maxIdx l = some i → i < l.length := by
  intro l
  induction l with
  | nil => intro i h; simp [maxIdx] at h
  | cons a rest ih =>
    intro i h
    cases hrec : maxIdx rest with
    | none =>
      simp only [maxIdx, hrec] at h
      cases h
      simp
    | some j =>
      simp only [maxIdx, hrec] at h
      by_cases hlt : a < rest.getD j 0
      · rw [if_pos hlt] at h
        cases h
        have := ih j hrec
        simp only [List.length_cons]
        omega
      · rw [if_neg hlt] at h
        cases h
        simp

theorem maxIdx_cons_isSome (a : ℚ) (rest : List ℚ) : ∃ i, maxIdx (a :: rest) = some i := by
  cases hrec : maxIdx rest with
  | none => exact ⟨0, by simp only [maxIdx, hrec]⟩
  | some j =>
    by_cases hlt : a < rest.getD j 0
    · exact ⟨j + 1, by simp only [maxIdx, hrec]; rw [if_pos hlt]⟩
    · exact ⟨0, by simp only [maxIdx, hrec]; rw [if_neg hlt]⟩

theorem maxIdx_ne_nil_isSome (l : List ℚ) (h : l ≠ []) : ∃ i, maxIdx l = some i := by
  cases l with
  | nil => exact absurd rfl h
  | cons a rest => exact maxIdx_cons_isSome a rest

theorem argmaxDim1_ok (t : Tensor) (m k : ℕ) (hs : t.shape = [m, k]) (hk : 0 < k) :
    ∃ l, argmaxDim1 t = .ok l ∧ l.length = m ∧ ∀ x ∈ l, x < k := by
  obtain ⟨sh, f⟩ := t
  cases hs
  refine ⟨(List.range m).map
      (fun r => (maxIdx ((List.range k).map (fun c => f (r * k + c)))).getD 0),
    ?_, by simp, ?_⟩
  · simp only [argmaxDim1]
    rw [if_pos hk]
  · intro x hx
    simp only [List.mem_map] at hx
    obtain ⟨r, _, hval⟩ := hx
    have hne : (List.range k).map (fun c => f (r * k + c)) ≠ [] := by
      intro hcon
      have := congrArg List.length hcon
      simp at this
      omega
    obtain ⟨i, hi⟩ := maxIdx_ne_nil_isSome _ hne
    have hlen := maxIdx_lt_length _ _ hi
    rw [hi] at hval
    simp only [Option.getD_some] at hval
    simp only [List.length_map, List.length_range] at hlen
    omega

theorem target_to_pix_ok {l : List ℕ} (h : ∀ x ∈ l, x < Agent.num_pixels) :
    ∃ ps, Agent.target_to_pix l = some ps ∧ ps.length = l.length ∧
      ∀ p ∈ ps, p ∈ Agent.pixels := by
  apply traverseOpt_ok
  intro x hx
  have hx7 : x < Agent.pixels.length := h x hx
  exact ⟨Agent.pixels.get ⟨x, hx7⟩, List.get?_eq_get hx7, List.get_mem _ _ _⟩

theorem scatterOnes_ok (n r : ℕ) (idx : List ℕ) (hr : 0 < r)
    (hlen : idx.length = n) (hall : ∀ x ∈ idx, x < r) :
    ∃ t, scatterOnes n r idx = .ok t ∧ t.shape = [n, r] ∧ RewardRows n r t.f ∧
      ∀ i, t.f i = 0 ∨ t.f i = 1 := by
  have hall' : idx.all (· < r) = true := by
    rw [List.all_eq_true]; intro x hx; simpa using hall x hx
  refine ⟨⟨[n, r], fun i => if i % r = idx.getD (i / r) 0 then 1 else 0⟩, ?_, rfl, ?_, ?_⟩
  · simp only [scatterOnes]
    rw [if_pos ⟨hlen, hall'⟩]
  · intro m hm
    refine ⟨idx.getD m 0, ?_, ?_⟩
    · rcases getD_nat_cases idx m 0 with hmem | hdef
      · exact hall _ hmem
      · rw [hdef]; exact hr
    · intro j hj
      have hmod : (m * r + j) % r = j := by
        rw [Nat.mul_comm m r, Nat.mul_add_mod]
        exact Nat.mod_eq_of_lt hj
      have hdiv : (m * r + j) / r = m := by
        rw [Nat.mul_comm m r, Nat.mul_add_div hr, Nat.div_eq_of_lt hj]
        omega
      dsimp only
      rw [hmod, hdiv]
  · intro i
    dsimp only
    by_cases h : i % r = idx.getD (i / r) 0
    · right; rw [if_pos h]
    · left; rw [if_neg h]

theorem cat0_ok (ts : List Tensor) (s : List ℕ) (hne : ts ≠ [])
    (hall : ∀ u ∈ ts, u.shape = s) :
    ∃ t, cat0 ts = .ok t ∧ t.shape = ts.length * s.headD 0 :: s.tail ∧
      ∀ q : ℕ, ∃ u ∈ ts, ∀ x, x / s.prod = q → t.f x = u.f (x % s.prod) := by
  obtain ⟨t0, rest, rfl⟩ : ∃ t0 rest, ts = t0 :: rest := by
    cases ts with
    | nil => exact absurd rfl hne
    | cons a as => exact ⟨a, as, rfl⟩
  have h0 : t0.shape = s := hall t0 (by simp)
  have hcheck : (t0 :: rest).all (fun u => u.shape = t0.shape) = true := by
    rw [List.all_eq_true]
    intro u hu
    simp [hall u hu, h0]
  refine ⟨⟨(t0 :: rest).length * t0.shape.headD 0 :: t0.shape.tail,
          fun i => (((t0 :: rest).get? (i / numel t0)).getD t0).f (i % numel t0)⟩,
    ?_, ?_, ?_⟩
  · simp only [cat0]
    rw [if_pos hcheck]
  · simp [h0]
  · intro q
    have hnumel : numel t0 = s.prod := by rw [numel, h0]
    cases hq : (t0 :: rest).get? q with
    | none =>
      refine ⟨t0, by simp, ?_⟩
      intro x hx
      dsimp only
      rw [hnumel, hx, hq]
      simp only [Option.getD_none]
    | some u =>
      refine ⟨u, List.get?_mem hq, ?_⟩
      intro x hx
      dsimp only
      rw [hnumel, hx, hq]
      simp only [Option.getD_some]

theorem pixel_components01 :
    ∀ p ∈ Agent.pixels, (p.1 = 0 ∨ p.1 = 1) ∧ (p.2.1 = 0 ∨ p.2.1 = 1) ∧
      (p.2.2 = 0 ∨ p.2.2 = 1) := by
  intro p hp
  fin_cases hp <;> norm_num

theorem flattenTriples_mem01 (ps : List (ℚ × ℚ × ℚ)) (hps : ∀ p ∈ ps, p ∈ Agent.pixels) :
    ∀ q ∈ flattenTriples ps, q = 0 ∨ q = 1 := by
  intro q hq
  rw [flattenTriples, List.mem_flatMap] at hq
  obtain ⟨p, hp, hqp⟩ := hq
  obtain ⟨h1, h2, h3⟩ := pixel_components01 p (hps p hp)
  simp only [List.mem_cons, List.not_mem_nil, or_false] at hqp
  rcases hqp with rfl | rfl | rfl
  · exact h1
  · exact h2
  · exact h3

theorem block_mod (N R m j : ℕ) (hj : j < R) : (m * R + j) % (N * R) = m % N * R + j := by
  rcases Nat.eq_zero_or_pos N with rfl | hN
  · simp [Nat.mod_zero]
  · have hdecomp : m * R + j = N * R * (m / N) + (m % N * R + j) := by
      conv_lhs => rw [show m = N * (m / N) + m % N from (Nat.div_add_mod m N).symm]
      ring
    rw [hdecomp, Nat.mul_add_mod]
    apply Nat.mod_eq_of_lt
    have ha : m % N < N := Nat.mod_lt _ hN
    calc m % N * R + j < m % N * R + R := by omega
    _ = (m % N + 1) * R := by ring
    _ ≤ N * R := Nat.mul_le_mul_right R (by omega)

theorem block_div (N R m j : ℕ) (hj : j < R) : (m * R + j) / (N * R) = m / N := by
  rcases Nat.eq_zero_or_pos N with rfl | hN
  · simp
  · have hR : 0 < R := by omega
    have hdecomp : m * R + j = N * R * (m / N) + (m % N * R + j) := by
      conv_lhs => rw [show m = N * (m / N) + m % N from (Nat.div_add_mod m N).symm]
      ring
    rw [hdecomp, Nat.mul_add_div (by positivity)]
    have ha : m % N < N := Nat.mod_lt _ hN
    have hlt : m % N * R + j < N * R := by
      calc m % N * R + j < m % N * R + R := by omega
      _ = (m % N + 1) * R := by ring
      _ ≤ N * R := Nat.mul_le_mul_right R (by omega)
    rw [Nat.div_eq_of_lt hlt]
    omega

theorem imStepCore_ok (core : ICore) (n h w : ℕ)
    (hin : core.in_shape = [3, h, w])
    (hR : 0 < core.num_rewards)
    (hconf : ConformsTo core.env_model n (3 + core.num_actions) h w core.num_rewards)
    (state : Tensor) (hs : state.shape = [n, 3, h, w]) :
    ∃ is onehotR, imStepCore core n state = .ok (is, onehotR) ∧
      is.shape = n :: core.in_shape ∧
      (∀ i, is.f i = 0 ∨ is.f i = 1) ∧
      onehotR.shape = [n, core.num_rewards] ∧
      RewardRows n core.num_rewards onehotR.f ∧
      (∀ i, onehotR.f i = 0 ∨ onehotR.f i = 1) := by
  have hinputs : (stepInputs core n state).shape = [n, 3 + core.num_actions, h, w] := by
    simp [stepInputs, cat1, stepOnehotAction, onesT, hs, hin]
  obtain ⟨hslog, hrlog⟩ := hconf _ hinputs
  obtain ⟨sIdx, hsidx, hsidxLen, hsidxLt⟩ := argmaxDim1_ok _ _ _ hslog (by decide)
  obtain ⟨rIdx, hridx, hridxLen, hridxLt⟩ := argmaxDim1_ok _ _ _ hrlog hR
  obtain ⟨ps, hps, hpsLen, hpsMem⟩ := target_to_pix_ok hsidxLt
  have hflat01 := flattenTriples_mem01 ps hpsMem
  have hview : viewAs (n :: core.in_shape) (tensorOfTriples ps) =
      .ok ⟨n :: core.in_shape, fun i => (flattenTriples ps).getD i 0⟩ := by
    rw [viewAs, if_pos]
    · rfl
    · rw [numel]
      simp only [tensorOfTriples, hin, hpsLen, hsidxLen, List.prod_cons, List.prod_nil]
      ring
  obtain ⟨onehotR, hor, horShape, horRows, hor01⟩ :=
    scatterOnes_ok n core.num_rewards rIdx hR hridxLen hridxLt
  refine ⟨⟨n :: core.in_shape, fun i => (flattenTriples ps).getD i 0⟩, onehotR,
    ?_, rfl, ?_, horShape, horRows, hor01⟩
  · simp only [imStepCore]
    rw [hsidx]
    simp only [except_bind_ok]
    rw [hridx]
    simp only [except_bind_ok]
    rw [hps]
    simp only [except_bind_ok]
    rw [hview]
    simp only [except_bind_ok]
    rw [hor]
    simp only [except_bind_ok]
  · intro i
    rcases getD_cases (flattenTriples ps) i 0 with hmem | hdef
    · exact hflat01 _ hmem
    · dsimp only
      left
      exact hdef

theorem imStep_ok (core : ICore) (n h w : ℕ)
    (hin : core.in_shape = [3, h, w])
    (hR : 0 < core.num_rewards)
    (hconf : ConformsTo core.env_model n (3 + core.num_actions) h w core.num_rewards)
    (state : Tensor) (hs : state.shape = [n, 3, h, w]) :
    ∃ is onehotR act, imStep core n state = .ok (is, onehotR, act) ∧
      is.shape = n :: core.in_shape ∧
      (∀ i, is.f i = 0 ∨ is.f i = 1) ∧
      onehotR.shape = [n, core.num_rewards] ∧
      RewardRows n core.num_rewards onehotR.f ∧
      (∀ i, onehotR.f i = 0 ∨ onehotR.f i = 1) := by
  obtain ⟨is, onehotR, hstep, h1, h2, h3, h4, h5⟩ :=
    imStepCore_ok core n h w hin hR hconf state hs
  refine ⟨is, onehotR, core.distil_act is, ?_, h1, h2, h3, h4, h5⟩
  simp only [imStep]
  rw [hstep]
  simp only [except_bind_ok]

theorem imLoop_ok (core : ICore) (n h w : ℕ)
    (hin : core.in_shape = [3, h, w])
    (hR : 0 < core.num_rewards)
    (hconf : ConformsTo core.env_model n (3 + core.num_actions) h w core.num_rewards) :
    ∀ (t : ℕ) (state : Tensor) (action : List ℕ) (ss rs : List Tensor),
      state.shape = [n, 3, h, w] →
      (∀ u ∈ ss, u.shape = 1 :: n :: core.in_shape ∧ ∀ i, u.f i = 0 ∨ u.f i = 1) →
      (∀ u ∈ rs, u.shape = 1 :: [n, core.num_rewards] ∧
        RewardRows n core.num_rewards u.f ∧ ∀ i, u.f i = 0 ∨ u.f i = 1) →
      ∃ ss' rs', imLoop core n t state action ss rs = .ok (ss', rs') ∧
        ss'.length = ss.length + t ∧ rs'.length = rs.length + t ∧
        (∀ u ∈ ss', u.shape = 1 :: n :: core.in_shape ∧ ∀ i, u.f i = 0 ∨ u.f i = 1) ∧
        (∀ u ∈ rs', u.shape = 1 :: [n, core.num_rewards] ∧
          RewardRows n core.num_rewards u.f ∧ ∀ i, u.f i = 0 ∨ u.f i = 1) := by
  intro t
  induction t with
  | zero =>
    intro state action ss rs _hs hss hrs
    refine ⟨ss.reverse, rs.reverse, rfl, by simp, by simp, ?_, ?_⟩
    · intro u hu; exact hss u (List.mem_reverse.mp hu)
    · intro u hu; exact hrs u (List.mem_reverse.mp hu)
  | succ t ih =>
    intro state action ss rs hs hss hrs
    obtain ⟨is, onehotR, act, hstep, hisSh, his01, horSh, horRows, hor01⟩ :=
      imStep_ok core n h w hin hR hconf state hs
    have hisSh' : is.shape = [n, 3, h, w] := by rw [hisSh, hin]
    obtain ⟨ss', rs', hloop, hlen1, hlen2, hss', hrs'⟩ :=
      ih is act (unsqueeze0 is :: ss) (unsqueeze0 onehotR :: rs) hisSh'
        (by
          intro u hu
          rcases List.mem_cons.mp hu with rfl | hu'
          · exact ⟨by rw [unsqueeze0, hisSh], his01⟩
          · exact hss u hu')
        (by
          intro u hu
          rcases List.mem_cons.mp hu with rfl | hu'
          · exact ⟨by rw [unsqueeze0, horSh], horRows, hor01⟩
          · exact hrs u hu')
    refine ⟨ss', rs', ?_, by simp at hlen1 ⊢; omega, by simp at hlen2 ⊢; omega, hss', hrs'⟩
    simp only [imLoop]
    rw [hstep]
    simp only [except_bind_ok]
    exact hloop

theorem call_full_ok (core : ICore) (b h w : ℕ) (state : Tensor)
    (hfull : core.full_rollout = true)
    (hT1 : 0 < core.num_rolouts)
    (hin : core.in_shape = [3, h, w]) (hh : 0 < h) (hw : 0 < w)
    (hR : 0 < core.num_rewards)
    (hs : state.shape = [b, 3, h, w])
    (hconf : ConformsTo core.env_model (b * core.num_actions) (3 + core.num_actions) h w
      core.num_rewards) :
    ∃ s r, ICore.call core state = .ok (s, r) ∧
      s.shape = core.num_rolouts :: b * core.num_actions :: core.in_shape ∧
      r.shape = [core.num_rolouts, b * core.num_actions, core.num_rewards] ∧
      (∀ i, s.f i = 0 ∨ s.f i = 1) ∧
      RewardRows (core.num_rolouts * (b * core.num_actions)) core.num_rewards r.f := by
  have hb : size0 state = b := by rw [size0, hs]; rfl
  have hpos : 0 < 3 * (h * (w * 1)) := by
    simp only [Nat.mul_one]
    have := Nat.mul_pos hh hw
    omega
  have hnumel : numel (repeat0 core.num_actions (unsqueeze0 state)) =
      core.num_actions * b * (3 * (h * (w * 1))) := by
    simp only [numel, repeat0, unsqueeze0, hs, List.headD_cons, List.tail_cons,
      List.prod_cons, List.prod_nil]
    ring
  have hposin : 0 < core.in_shape.prod := by
    rw [hin]; simpa using hpos
  have hdvdin : core.in_shape.prod ∣ numel (repeat0 core.num_actions (unsqueeze0 state)) := by
    rw [hin, hnumel]
    exact ⟨core.num_actions * b, by simp [List.prod_cons]; ring⟩
  have hview : viewTail core.in_shape (repeat0 core.num_actions (unsqueeze0 state)) =
      .ok ⟨numel (repeat0 core.num_actions (unsqueeze0 state)) / core.in_shape.prod ::
             core.in_shape,
           (repeat0 core.num_actions (unsqueeze0 state)).f⟩ := by
    rw [viewTail, if_pos ⟨hposin, hdvdin⟩]
  have hexpShape :
      (⟨numel (repeat0 core.num_actions (unsqueeze0 state)) / core.in_shape.prod ::
          core.in_shape,
        (repeat0 core.num_actions (unsqueeze0 state)).f⟩ : Tensor).shape =
      [b * core.num_actions, 3, h, w] := by
    simp only [hnumel, hin, List.prod_cons, List.prod_nil]
    rw [Nat.mul_div_cancel _ hpos]
    rw [Nat.mul_comm]
  obtain ⟨ss', rs', hloop, hlen1, hlen2, hss', hrs'⟩ :=
    imLoop_ok core (b * core.num_actions) h w hin hR hconf core.num_rolouts
      _ (initActions core.num_actions b) [] [] hexpShape (by simp) (by simp)
  have hlenss : ss'.length = core.num_rolouts := by simpa using hlen1
  have hlenrs : rs'.length = core.num_rolouts := by simpa using hlen2
  have hnepos : ss' ≠ [] := by
    rw [← List.length_pos_iff_ne_nil, hlenss]; exact hT1
  have hnepos2 : rs' ≠ [] := by
    rw [← List.length_pos_iff_ne_nil, hlenrs]; exact hT1
  obtain ⟨s, hcats, hsShape, hsBlocks⟩ :=
    cat0_ok ss' (1 :: (b * core.num_actions) :: core.in_shape) hnepos
      (fun u hu => (hss' u hu).1)
  obtain ⟨r, hcatr, hrShape, hrBlocks⟩ :=
    cat0_ok rs' (1 :: [b * core.num_actions, core.num_rewards]) hnepos2
      (fun u hu => (hrs' u hu).1)
  have hprodR : ((1 : ℕ) :: [b * core.num_actions, core.num_rewards]).prod =
      b * core.num_actions * core.num_rewards := by simp
  refine ⟨s, r, ?_, ?_, ?_, ?_, ?_⟩
  · simp only [ICore.call]
    rw [hfull]
    rw [if_pos rfl]
    rw [hview]
    simp only [except_bind_ok]
    rw [hb]
    rw [hloop]
    simp only [except_bind_ok]
    rw [hcats]
    simp only [except_bind_ok]
    rw [hcatr]
    simp only [except_bind_ok]
  · rw [hsShape, hlenss]
    simp
  · rw [hrShape, hlenrs]
    simp
  · intro i
    obtain ⟨u, huMem, huF⟩ := hsBlocks (i / ((1 : ℕ) :: (b * core.num_actions) ::
      core.in_shape).prod)
    rw [huF i rfl]
    exact (hss' u huMem).2 _
  · intro m hm
    have hN : 0 < b * core.num_actions := by
      rcases Nat.eq_zero_or_pos (b * core.num_actions) with hz | hp

      · rw [hz] at hm; simp at hm
      · exact hp
    obtain ⟨u, huMem, huF⟩ := hrBlocks (m / (b * core.num_actions))
    obtain ⟨_, huRows, _⟩ := hrs' u huMem
    obtain ⟨c, hc, hcf⟩ := huRows (m % (b * core.num_actions))
      (Nat.mod_lt _ hN)
    refine ⟨c, hc, ?_⟩
    intro j hj
    have hx := huF (m * core.num_rewards + j)
      (by rw [hprodR]; exact block_div _ _ m j hj)
    rw [hx, hprodR, block_mod _ _ m j hj]
    exact hcf j hj

theorem imStepCore_distil (core : ICore) (ds : Tensor → List ℕ) (n : ℕ) (state : Tensor) :
    imStepCore {core with distil_act := ds} n state = imStepCore core n state := rfl

theorem imLoop_distil (core : ICore) (ds1 ds2 : Tensor → List ℕ) (n : ℕ) :
    ∀ (t : ℕ) (state : Tensor) (a1 a2 : List ℕ) (ss rs : List Tensor),
      imLoop {core with distil_act := ds1} n t state a1 ss rs =
      imLoop {core with distil_act := ds2} n t state a2 ss rs := by
  intro t
  induction t with
  | zero => intro state a1 a2 ss rs; rfl
  | succ t ih =>
    intro state a1 a2 ss rs
    simp only [imLoop, imStep, imStepCore_distil]
    cases imStepCore core n state with
    | error e => rfl
    | ok p =>
      simp only [except_bind_ok]
      exact ih p.1 (ds1 p.1) (ds2 p.1) _ _

theorem call_distil (core : ICore) (ds1 ds2 : Tensor → List ℕ) (state : Tensor) :
    ICore.call {core with distil_act := ds1} state =
    ICore.call {core with distil_act := ds2} state := by
  simp only [ICore.call]
  by_cases hfr : core.full_rollout = true
  · rw [if_pos hfr, if_pos hfr]
    cases viewTail core.in_shape (repeat0 core.num_actions (unsqueeze0 state)) with
    | error e => rfl
    | ok st =>
      simp only [except_bind_ok]
      rw [imLoop_distil core ds1 ds2]
  · rw [if_neg hfr, if_neg hfr]

theorem forward_distil (net : I2ANet) (ds1 ds2 : Tensor → List ℕ) (state : Tensor) :
    I2ANet.forward
        {net with imagination := {net.imagination with distil_act := ds1}} state =
    I2ANet.forward
        {net with imagination := {net.imagination with distil_act := ds2}} state := by
  simp only [I2ANet.forward]
  rw [call_distil net.imagination ds1 ds2 state]

theorem lookupIdx_swap_agree (q : ℚ × ℚ × ℚ) (h0 : q ≠ (0, 1, 0)) (h1 : q ≠ (0, 1, 1)) :
    lookupIdx Agent.pixels q = lookupIdx PacmanUtil.pixels q := by
  have e0 : ¬((0, 1, 0) : ℚ × ℚ × ℚ) = q := fun hcon => h0 hcon.symm
  have e1 : ¬((0, 1, 1) : ℚ × ℚ × ℚ) = q := fun hcon => h1 hcon.symm
  simp only [Agent.pixels, PacmanUtil.pixels, lookupIdx]
  rw [if_neg e0, if_neg e1, if_neg e1, if_neg e0]

/-! ### Claim theorems -/

/-- C1: the claim says the tensor concatenated onto the state along the
channel dimension is a one-hot spatial action plane (the current action's
channel all ones, every other action channel all zeros).  In the code as
written the concatenated block is `torch.ones(...)` with the one-hot
assignment commented out: with two actions and a single expanded batch of
two elements (paired with actions `[0, 1]`), all four action-channel entries
of the step inputs equal 1, where the claim requires the non-paired channel
of each element to be 0. -/
theorem onehot_action_plane_is_all_ones :
    (stepInputs coreW 2 stateWexp).f 3 = 1 ∧ (stepInputs coreW 2 stateWexp).f 4 = 1 ∧
    (stepInputs coreW 2 stateWexp).f 8 = 1 ∧ (stepInputs coreW 2 stateWexp).f 9 = 1 ∧
    initActions 2 1 = [0, 1] ∧ ((1 : ℚ) ≠ 0) := by
  refine ⟨?_, ?_, ?_, ?_, by decide, by norm_num⟩ <;>
    norm_num [stepInputs, cat1, stepOnehotAction, onesT, coreW, stateWexp, tensorOfList]

/-- C3 counterexample: on the palette pixel (0,1,0) both per-pixel encoders
succeed but return different category indices (0 against 1), and on the
in-range category index 0 the two decoders return different pixel tuples. -/
theorem codecs_disagree_at_green_pixel :
    Agent.pix_to_target (tensorOfList [1, 3, 1, 1] [0, 1, 0]) = some [0] ∧
    PacmanUtil.pix_to_target [(0, 1, 0)] = some [1] ∧
    Agent.target_to_pix [0] = some [(0, 1, 0)] ∧
    PacmanUtil.target_to_pix [0] = some [(0, 1, 1)] ∧
    ((0, 1, 0) : ℚ × ℚ × ℚ) ≠ (0, 1, 1) ∧ (some [0] : Option (List ℕ)) ≠ some [1] := by
  refine ⟨?_, ?_, ?_, ?_, by norm_num, by norm_num⟩
  · norm_num [Agent.pix_to_target, Agent.nchwPixelList, Agent.roundPixel, Agent.pixel_to_onehot,
      Agent.pixels, tensorOfList, traverseOpt, lookupIdx, npRound, List.range_succ,
      Prod.mk.injEq, -Prod.mk_one_one, -Prod.mk_zero_zero]
  · norm_num [PacmanUtil.pix_to_target, PacmanUtil.ceilPixel, PacmanUtil.pixel_to_categorical,
      PacmanUtil.pixels, traverseOpt, lookupIdx, npCeil, Prod.mk.injEq,
      -Prod.mk_one_one, -Prod.mk_zero_zero]
  · norm_num [Agent.target_to_pix, Agent.pixels, traverseOpt]
  · norm_num [PacmanUtil.target_to_pix, PacmanUtil.pixels, traverseOpt]

/-- C3 amended: the two codecs agree exactly away from the swapped palette
pair: the decoders agree on every category index in [2, 7) and swap the
pixels of indices 0 and 1; the per-pixel encoders agree on every pixel whose
rounded tuple equals its ceiled tuple and is not (0,1,0) or (0,1,1). -/
theorem codecs_agree_outside_swapped_pair :
    (∀ t, 2 ≤ t → t < 7 → Agent.target_to_pix [t] = PacmanUtil.target_to_pix [t]) ∧
    (Agent.target_to_pix [0] = some [(0, 1, 0)] ∧
     PacmanUtil.target_to_pix [0] = some [(0, 1, 1)] ∧
     Agent.target_to_pix [1] = some [(0, 1, 1)] ∧
     PacmanUtil.target_to_pix [1] = some [(0, 1, 0)]) ∧
    (∀ p : ℚ × ℚ × ℚ, Agent.roundPixel p = PacmanUtil.ceilPixel p →
       Agent.roundPixel p ≠ (0, 1, 0) → Agent.roundPixel p ≠ (0, 1, 1) →
       Agent.pixel_to_onehot (Agent.roundPixel p) =
         PacmanUtil.pixel_to_categorical (PacmanUtil.ceilPixel p)) := by
  refine ⟨?_, ⟨?_, ?_, ?_, ?_⟩, ?_⟩
  · intro t h2 h7
    interval_cases t <;>
      norm_num [Agent.target_to_pix, PacmanUtil.target_to_pix, Agent.pixels,
        PacmanUtil.pixels, traverseOpt]
  · norm_num [Agent.target_to_pix, Agent.pixels, traverseOpt]
  · norm_num [PacmanUtil.target_to_pix, PacmanUtil.pixels, traverseOpt]
  · norm_num [Agent.target_to_pix, Agent.pixels, traverseOpt]
  · norm_num [PacmanUtil.target_to_pix, PacmanUtil.pixels, traverseOpt]
  · intro p heq hne0 hne1
    rw [Agent.pixel_to_onehot, PacmanUtil.pixel_to_categorical, ← heq]
    exact lookupIdx_swap_agree _ hne0 hne1

/-- C3 amended, witness: instantiated at index 5 and at the pixel (0,0,0),
whose rounding and ceiling agree and avoid the swapped pair. -/
theorem codecs_agree_outside_swapped_pair_witness :
    Agent.target_to_pix [5] = PacmanUtil.target_to_pix [5] ∧
    Agent.pixel_to_onehot (Agent.roundPixel (0, 0, 0)) =
      PacmanUtil.pixel_to_categorical (PacmanUtil.ceilPixel (0, 0, 0)) := by
  refine ⟨codecs_agree_outside_swapped_pair.1 5 (by norm_num) (by norm_num),
    codecs_agree_outside_swapped_pair.2.2 (0, 0, 0) ?_ ?_ ?_⟩ <;>
    norm_num [Agent.roundPixel, PacmanUtil.ceilPixel, npRound, npCeil, Prod.mk.injEq,
      -Prod.mk_zero_zero]

/-- C5: the outputs of `ImaginationCore.__call__` and of `I2A.forward` do not
depend on the distillation policy's action choices: for any two action
oracles (covering any two sampling outcomes of `distil_policy.act`) and the
same weights and input, the outputs coincide, so both are deterministic
functions of the weights and the input. -/
theorem imagination_and_forward_independent_of_distil_sampling
    (core : ICore) (net : I2ANet) (ds1 ds2 : Tensor → List ℕ) (state : Tensor) :
    ICore.call {core with distil_act := ds1} state =
      ICore.call {core with distil_act := ds2} state ∧
    I2ANet.forward
        {net with imagination := {net.imagination with distil_act := ds1}} state =
      I2ANet.forward
        {net with imagination := {net.imagination with distil_act := ds2}} state :=
  ⟨call_distil core ds1 ds2 state, forward_distil net ds1 ds2 state⟩

/-- C7: encoding a palette entry and decoding the result returns the entry,
in each of the two codec implementations (whose palettes hold the same seven
pixels). -/
theorem codec_roundtrip_on_palette (p : ℚ × ℚ × ℚ) (hp : p ∈ Agent.pixels) :
    (Agent.pix_to_target (tensorOfList [1, 3, 1, 1] [p.1, p.2.1, p.2.2])).bind
        Agent.target_to_pix = some [p] ∧
    (PacmanUtil.pix_to_target [p]).bind PacmanUtil.target_to_pix = some [p] ∧
    p ∈ PacmanUtil.pixels := by
  fin_cases hp <;>
    exact ⟨by norm_num [Agent.pix_to_target, Agent.nchwPixelList, Agent.roundPixel,
        Agent.pixel_to_onehot, Agent.target_to_pix, Agent.pixels, tensorOfList, traverseOpt,
        lookupIdx, npRound, List.range_succ, Prod.mk.injEq, -Prod.mk_one_one,
        -Prod.mk_zero_zero],
      by norm_num [PacmanUtil.pix_to_target, PacmanUtil.ceilPixel,
        PacmanUtil.pixel_to_categorical, PacmanUtil.target_to_pix, PacmanUtil.pixels,
        traverseOpt, lookupIdx, npCeil, Prod.mk.injEq, -Prod.mk_one_one, -Prod.mk_zero_zero],
      by norm_num [PacmanUtil.pixels, Prod.mk.injEq, -Prod.mk_one_one, -Prod.mk_zero_zero]⟩

/-- C7 witness: the round trip at the concrete palette entry (0,1,0). -/
theorem codec_roundtrip_on_palette_witness :
    (Agent.pix_to_target (tensorOfList [1, 3, 1, 1]
        [((0 : ℚ), (1 : ℚ), (0 : ℚ)).1, ((0 : ℚ), (1 : ℚ), (0 : ℚ)).2.1,
         ((0 : ℚ), (1 : ℚ), (0 : ℚ)).2.2])).bind Agent.target_to_pix =
      some [((0 : ℚ), (1 : ℚ), (0 : ℚ))] ∧
    (PacmanUtil.pix_to_target [((0 : ℚ), (1 : ℚ), (0 : ℚ))]).bind PacmanUtil.target_to_pix =
      some [((0 : ℚ), (1 : ℚ), (0 : ℚ))] ∧
    ((0 : ℚ), (1 : ℚ), (0 : ℚ)) ∈ PacmanUtil.pixels :=
  codec_roundtrip_on_palette (0, 1, 0) (by norm_num [Agent.pixels])

/-- C8: each `pix_to_target` fails (the dict lookup raises, surfaced by the
spec as `UnknownPixelError`) if and only if some traversed pixel's rounded
(respectively ceiled) component tuple is absent from its palette; when every
tuple is present it succeeds with one category index per spatial pixel. -/
theorem pix_to_target_failure_iff_offpalette (t : Tensor) (n h w : ℕ)
    (hs : t.shape = [n, 3, h, w]) (ps : List (ℚ × ℚ × ℚ)) :
    (Agent.pix_to_target t = none ↔
      ∃ p ∈ Agent.nchwPixelList t, Agent.roundPixel p ∉ Agent.pixels) ∧
    (Agent.pix_to_target t ≠ none →
      ∃ l, Agent.pix_to_target t = some l ∧ l.length = n * h * w) ∧
    (PacmanUtil.pix_to_target ps = none ↔
      ∃ p ∈ ps, PacmanUtil.ceilPixel p ∉ PacmanUtil.pixels) ∧
    (PacmanUtil.pix_to_target ps ≠ none →
      ∃ l, PacmanUtil.pix_to_target ps = some l ∧ l.length = ps.length) := by
  obtain ⟨sh, f⟩ := t
  cases hs
  have hagent : Agent.pix_to_target ⟨[n, 3, h, w], f⟩ =
      traverseOpt (fun p => Agent.pixel_to_onehot (Agent.roundPixel p))
        (Agent.nchwPixelList ⟨[n, 3, h, w], f⟩) := rfl
  have hlen : (Agent.nchwPixelList ⟨[n, 3, h, w], f⟩).length = n * h * w := by
    simp [Agent.nchwPixelList]
  refine ⟨?_, ?_, ?_, ?_⟩
  · rw [hagent, traverseOpt_eq_none_iff]
    refine exists_congr fun p => and_congr_right fun _ => ?_
    rw [Agent.pixel_to_onehot, lookupIdx_eq_none_iff]
  · intro hne
    obtain ⟨l, hl⟩ := Option.ne_none_iff_exists'.mp hne
    refine ⟨l, hl, ?_⟩
    rw [hagent] at hl
    rw [traverseOpt_some_length _ _ _ hl, hlen]
  · rw [PacmanUtil.pix_to_target, traverseOpt_eq_none_iff]
    refine exists_congr fun p => and_congr_right fun _ => ?_
    rw [PacmanUtil.pixel_to_categorical, lookupIdx_eq_none_iff]
  · intro hne
    obtain ⟨l, hl⟩ := Option.ne_none_iff_exists'.mp hne
    refine ⟨l, hl, ?_⟩
    rw [PacmanUtil.pix_to_target] at hl
    rw [traverseOpt_some_length _ _ _ hl]

/-- C8 witness: at the concrete one-pixel observation (0,1,0) both encoders
succeed with one category index, so the failure characterisation applies. -/
theorem pix_to_target_failure_iff_offpalette_witness :
    ((Agent.pix_to_target (tensorOfList [1, 3, 1, 1] [0, 1, 0]) = none ↔
      ∃ p ∈ Agent.nchwPixelList (tensorOfList [1, 3, 1, 1] [0, 1, 0]),
        Agent.roundPixel p ∉ Agent.pixels) ∧
    (Agent.pix_to_target (tensorOfList [1, 3, 1, 1] [0, 1, 0]) ≠ none →
      ∃ l, Agent.pix_to_target (tensorOfList [1, 3, 1, 1] [0, 1, 0]) = some l ∧
        l.length = 1 * 1 * 1) ∧
    (PacmanUtil.pix_to_target [(0, 1, 0)] = none ↔
      ∃ p ∈ [((0 : ℚ), (1 : ℚ), (0 : ℚ))],
        PacmanUtil.ceilPixel p ∉ PacmanUtil.pixels) ∧
    (PacmanUtil.pix_to_target [(0, 1, 0)] ≠ none →
      ∃ l, PacmanUtil.pix_to_target [(0, 1, 0)] = some l ∧
        l.length = [((0 : ℚ), (1 : ℚ), (0 : ℚ))].length)) :=
  pix_to_target_failure_iff_offpalette (tensorOfList [1, 3, 1, 1] [0, 1, 0]) 1 1 1 rfl
    [(0, 1, 0)]

/-- C9: with `full_rollout=False` the call raises
`ValueError('CANNOT USE FULL ROLLOUT')` before any imagination step: the
result is that error for every environment model, so the environment model is
never consulted and no rollout is produced. -/
theorem reduced_rollout_raises_unsupported (core : ICore) (state : Tensor)
    (h : core.full_rollout = false) :
    ICore.call core state = .error "CANNOT USE FULL ROLLOUT" ∧
    ∀ em : Tensor → Tensor × Tensor,
      ICore.call {core with env_model := em} state = .error "CANNOT USE FULL ROLLOUT" := by
  constructor
  · simp only [ICore.call]
    rw [if_neg]
    rw [h]
    simp
  · intro em
    simp only [ICore.call]
    rw [if_neg]
    simp [h]

/-- C9 witness: the concrete reduced-mode core raises the error, for the
concrete environment model and for every other. -/
theorem reduced_rollout_raises_unsupported_witness :
    ICore.call core9 stateW = .error "CANNOT USE FULL ROLLOUT" ∧
    ∀ em : Tensor → Tensor × Tensor,
      ICore.call {core9 with env_model := em} stateW = .error "CANNOT USE FULL ROLLOUT" :=
  reduced_rollout_raises_unsupported core9 stateW rfl

/-- C2: in full-rollout mode, under the spec interface of the environment
model, the call succeeds and returns imagined states of shape
(T, B*A, *in_shape) and imagined rewards of shape (T, B*A, num_rewards)
whose every row is a valid one-hot vector; the rollout batch size is exactly
B*A. -/
theorem imagination_full_rollout_shape_law (core : ICore) (b h w : ℕ) (state : Tensor)
    (hfull : core.full_rollout = true)
    (hT1 : 0 < core.num_rolouts)
    (hin : core.in_shape = [3, h, w]) (hh : 0 < h) (hw : 0 < w)
    (hR : 0 < core.num_rewards)
    (hs : state.shape = [b, 3, h, w])
    (hconf : ConformsTo core.env_model (b * core.num_actions) (3 + core.num_actions) h w
      core.num_rewards) :
    ∃ s r, ICore.call core state = .ok (s, r) ∧
      s.shape = core.num_rolouts :: b * core.num_actions :: core.in_shape ∧
      r.shape = [core.num_rolouts, b * core.num_actions, core.num_rewards] ∧
      RewardRows (core.num_rolouts * (b * core.num_actions)) core.num_rewards r.f := by
  obtain ⟨s, r, h1, h2, h3, _h4, h5⟩ :=
    call_full_ok core b h w state hfull hT1 hin hh hw hR hs hconf
  exact ⟨s, r, h1, h2, h3, h5⟩

/-- C2 witness: the shape law at the concrete core (batch 1, two actions,
depth 1, 1 by 1 observations, two reward categories). -/
theorem imagination_full_rollout_shape_law_witness :
    ∃ s r, ICore.call coreW stateW = .ok (s, r) ∧
      s.shape = coreW.num_rolouts :: 1 * coreW.num_actions :: coreW.in_shape ∧
      r.shape = [coreW.num_rolouts, 1 * coreW.num_actions, coreW.num_rewards] ∧
      RewardRows (coreW.num_rolouts * (1 * coreW.num_actions)) coreW.num_rewards r.f :=
  imagination_full_rollout_shape_law coreW 1 1 1 stateW rfl (by decide) rfl
    (by decide) (by decide) (by decide) rfl (fun _ _ => ⟨rfl, rfl⟩)

/-- C4 amended: the per-cell arg-max category index always lies below the
category dimension, `target_to_pix` maps in-range indices to palette tuples,
and consequently every scalar entry of the returned imagined states is a
component of a palette entry (0 or 1).  (The claimed stronger statement, that
every spatial cell of the returned tensor is itself a palette tuple, fails:
see the counterexample, caused by the channel-planar view of the pixel-major
decoded array at line 223.) -/
theorem imagined_state_scalars_are_palette_components (core : ICore) (b h w : ℕ)
    (state : Tensor)
    (hfull : core.full_rollout = true)
    (hT1 : 0 < core.num_rolouts)
    (hin : core.in_shape = [3, h, w]) (hh : 0 < h) (hw : 0 < w)
    (hR : 0 < core.num_rewards)
    (hs : state.shape = [b, 3, h, w])
    (hconf : ConformsTo core.env_model (b * core.num_actions) (3 + core.num_actions) h w
      core.num_rewards) :
    (∀ (u : Tensor) (m k : ℕ), u.shape = [m, k] → 0 < k →
      ∀ l, argmaxDim1 u = .ok l → ∀ x ∈ l, x < k) ∧
    (∀ l : List ℕ, (∀ x ∈ l, x < Agent.num_pixels) →
      ∃ ps, Agent.target_to_pix l = some ps ∧ ∀ p ∈ ps, p ∈ Agent.pixels) ∧
    (∃ s r, ICore.call core state = .ok (s, r) ∧ ∀ i, s.f i = 0 ∨ s.f i = 1) := by
  refine ⟨?_, ?_, ?_⟩
  · intro u m k hsu hk l hl x hx
    obtain ⟨l', hl', _, hlt⟩ := argmaxDim1_ok u m k hsu hk
    rw [hl'] at hl
    cases hl
    exact hlt x hx
  · intro l hl
    obtain ⟨ps, hps, _, hmem⟩ := target_to_pix_ok hl
    exact ⟨ps, hps, hmem⟩
  · obtain ⟨s, r, h1, _, _, h4, _⟩ :=
      call_full_ok core b h w state hfull hT1 hin hh hw hR hs hconf
    exact ⟨s, r, h1, h4⟩

/-- C4 amended, witness: instantiated at the concrete conforming core. -/
theorem imagined_state_scalars_are_palette_components_witness :
    (∀ (u : Tensor) (m k : ℕ), u.shape = [m, k] → 0 < k →
      ∀ l, argmaxDim1 u = .ok l → ∀ x ∈ l, x < k) ∧
    (∀ l : List ℕ, (∀ x ∈ l, x < Agent.num_pixels) →
      ∃ ps, Agent.target_to_pix l = some ps ∧ ∀ p ∈ ps, p ∈ Agent.pixels) ∧
    (∃ s r, ICore.call coreW stateW = .ok (s, r) ∧ ∀ i, s.f i = 0 ∨ s.f i = 1) :=
  imagined_state_scalars_are_palette_components coreW 1 1 1 stateW rfl (by decide) rfl
    (by decide) (by decide) (by decide) rfl (fun _ _ => ⟨rfl, rfl⟩)

/-- C4 counterexample: with a conforming environment model whose three cell
rows decode to the palette tuples (1,1,1), (0,0,0), (1,1,1), the returned
imagined state of shape (1, 1, 3, 1, 3) holds at its first spatial cell the
channel triple (1, 0, 1), which is not a member of the palette: the decoded
pixel-major (cells, 3) array is reinterpreted channel-planar by the view at
line 223, so a returned cell need not be a palette tuple. -/
theorem imagined_state_cell_outside_palette :
    (ICore.call core4 state4).toOption.map
        (fun p => (p.1.shape, p.1.f 0, p.1.f 3, p.1.f 6)) =
      some ([1, 1, 3, 1, 3], 1, 0, 1) ∧
    ((1 : ℚ), (0 : ℚ), (1 : ℚ)) ∉ Agent.pixels := by
  constructor
  · norm_num [ICore.call, core4, state4, em4, size0, tensorOfList, viewTail, numel,
      repeat0, unsqueeze0, initActions, imLoop, imStep, imStepCore, stepInputs,
      stepOnehotAction, onesT, cat1, argmaxDim1, maxIdx, Agent.target_to_pix, Agent.pixels,
      traverseOpt, tensorOfTriples, flattenTriples, viewAs, scatterOnes, cat0,
      except_bind_ok, List.range_succ, Except.toOption]
  · norm_num [Agent.pixels, Prod.mk.injEq, -Prod.mk_one_one, -Prod.mk_zero_zero]

/-- C6: shape law of `I2A.forward` in full-rollout mode: for any batch size
b and any configured action count between 1 and 9 (indeed any positive
count), the pipeline typechecks end to end and returns action-logits of
shape (b, num_actions) and a value of shape (b, 1); in particular the
(b*num_actions, hidden) encoder output reshapes exactly into one fused
vector of width num_actions*hidden per batch element, matching the fusion
layer's input width. -/
theorem i2a_forward_shape_law (b numActions numRewards hid numRolouts h w : ℕ)
    (hb : 0 < b) (hA1 : 1 ≤ numActions) (hA9 : numActions ≤ 9)
    (hT : 0 < numRolouts) (hR : 0 < numRewards) (hh : 5 ≤ h) (hw : 5 ≤ w) :
    i2aForwardS [3, h, w] numActions numRewards hid numRolouts b =
      some ([b, numActions], [b, 1]) ∧
    b * numActions * hid / b = numActions * hid := by
  have hA : 0 < numActions := hA1
  have hN : 0 < numActions * b := Nat.mul_pos hA hb
  have hTN : 0 < numRolouts * (numActions * b) := Nat.mul_pos hT hN
  have hProdIn : ([3, h, w] : List ℕ).prod = 3 * (h * w) := by
    simp [List.prod_cons]
  have hP : 0 < 3 * (h * w) := by
    have := Nat.mul_pos (show 0 < h by omega) (show 0 < w by omega)
    omega
  have hposIn : 0 < ([3, h, w] : List ℕ).prod := by rw [hProdIn]; exact hP
  -- the expansion view
  have hProdExp : ((numActions :: b :: [3, h, w]) : List ℕ).prod =
      numActions * b * (3 * (h * w)) := by
    simp only [List.prod_cons, List.prod_nil]
    ring
  have hviewT : viewTailS [3, h, w] (numActions :: b :: [3, h, w]) =
      some [numActions * b, 3, h, w] := by
    rw [viewTailS, if_pos ⟨hposIn, by rw [hProdIn, hProdExp]; exact ⟨numActions * b,
      by ring⟩⟩, hProdExp, hProdIn, Nat.mul_div_cancel _ hP]
  set n : ℕ := numActions * b with hn
  have hcat4 : cat4S [n, 3, h, w] (n :: numActions :: [h, w]) =
      some [n, 3 + numActions, h, w] := by
    simp [cat4S]
  have hviewA : viewAsS (n :: [3, h, w]) [n * h * w, 3] = some (n :: [3, h, w]) := by
    rw [viewAsS, if_pos]
    simp only [List.prod_cons, List.prod_nil]
    ring
  have himag : imaginationShapeS [3, h, w] numActions numRewards numRolouts
      (b :: [3, h, w]) = some ([numRolouts, n, 3, h, w], [numRolouts, n, numRewards]) := by
    rw [imaginationShapeS, hviewT]
    simp only [Option.bind_eq_bind, Option.some_bind, List.headD_cons, List.tail_cons]
    rw [hcat4]
    simp only [Option.some_bind]
    rw [if_pos ⟨by decide, hR⟩, hviewA]
    simp only [Option.some_bind]
    rw [if_pos hT]
    rfl
  -- the features stack
  set fh : ℕ := ((h - 3) / 1 + 1 - 3) / 2 + 1 with hfh
  set fw : ℕ := ((w - 3) / 1 + 1 - 3) / 2 + 1 with hfw
  have hfeat : ∀ m : ℕ, featuresS 3 [m, 3, h, w] = some [m, 16, fh, fw] := by
    intro m
    rw [featuresS, conv2dS, if_pos ⟨rfl, by omega, by omega⟩]
    simp only [Option.bind_eq_bind, Option.some_bind]
    rw [conv2dS, if_pos ⟨rfl, by omega, by omega⟩]
  have hfsize : featureSizeS [3, h, w] = some (16 * (fh * (fw * 1))) := by
    rw [featureSizeS, List.headD_cons, hfeat 1]
    simp [List.prod_cons]
  set e : ℕ := 16 * (fh * (fw * 1)) with he
  -- the rollout encoder
  have hProdSS : (([numRolouts, n, 3, h, w]) : List ℕ).prod =
      numRolouts * n * (3 * (h * w)) := by
    simp only [List.prod_cons, List.prod_nil]
    ring
  have hviewT2 : viewTailS [3, h, w] [numRolouts, n, 3, h, w] =
      some [numRolouts * n, 3, h, w] := by
    rw [viewTailS, if_pos ⟨hposIn, by rw [hProdIn, hProdSS]; exact ⟨numRolouts * n,
      by ring⟩⟩, hProdSS, hProdIn, Nat.mul_div_cancel _ hP]
  have hProdSt2 : (([numRolouts * n, 16, fh, fw]) : List ℕ).prod =
      numRolouts * n * e := by
    simp only [List.prod_cons, List.prod_nil, he]
  have hTn : 0 < numRolouts * n := Nat.mul_pos hT hN
  have hsplit : viewSplitS numRolouts n [numRolouts * n, 16, fh, fw] =
      some [numRolouts, n, e] := by
    rw [viewSplitS, if_pos ⟨hTn, by rw [hProdSt2]; exact ⟨e, rfl⟩⟩, hProdSt2,
      Nat.mul_div_cancel_left _ hTn]
  have hcat3 : cat3S [numRolouts, n, e] [numRolouts, n, numRewards] =
      some [numRolouts, n, e + numRewards] := by
    simp [cat3S]
  have hgru : gruFinalS (e + numRewards) hid [numRolouts, n, e + numRewards] =
      some [n, hid] := by
    rw [gruFinalS, if_pos ⟨rfl, hT⟩]
  have henc : rolloutEncoderS [3, h, w] numRewards hid [numRolouts, n, 3, h, w]
      [numRolouts, n, numRewards] = some [n, hid] := by
    rw [rolloutEncoderS]
    rw [hviewT2]
    simp only [Option.bind_eq_bind, Option.some_bind, List.headD_cons]
    rw [hfeat (numRolouts * n)]
    simp only [Option.some_bind]
    rw [hsplit]
    simp only [Option.some_bind]
    rw [hcat3]
    simp only [Option.some_bind]
    rw [hfsize]
    simp only [Option.some_bind]
    exact hgru
  -- the fusion and the heads
  have hProdHid : (([n, hid]) : List ℕ).prod = b * (numActions * hid) := by
    simp only [List.prod_cons, List.prod_nil, hn]
    ring
  have hview2 : viewLeadS b [n, hid] = some [b, numActions * hid] := by
    rw [viewLeadS, if_pos ⟨hb, by rw [hProdHid]; exact ⟨numActions * hid, rfl⟩⟩, hProdHid,
      Nat.mul_div_cancel_left _ hb]
  have hProdF1 : (([b, 16, fh, fw]) : List ℕ).prod = b * e := by
    simp only [List.prod_cons, List.prod_nil, he]
  have hviewF : viewLeadS b [b, 16, fh, fw] = some [b, e] := by
    rw [viewLeadS, if_pos ⟨hb, by rw [hProdF1]; exact ⟨e, rfl⟩⟩, hProdF1,
      Nat.mul_div_cancel_left _ hb]
  have hcat2 : cat2S [b, e] [b, numActions * hid] = some [b, e + numActions * hid] := by
    simp [cat2S]
  refine ⟨?_, ?_⟩
  · rw [i2aForwardS, himag]
    simp only [Option.bind_eq_bind, Option.some_bind]
    rw [henc]
    simp only [Option.some_bind]
    rw [hview2]
    simp only [Option.some_bind]
    rw [List.headD_cons, hfeat b]
    simp only [Option.some_bind, List.headD_cons]
    rw [hviewF]
    simp only [Option.some_bind]
    rw [hfsize]
    simp only [Option.some_bind]
    rw [hcat2]
    simp only [Option.some_bind]
    rw [linearS, if_pos rfl]
    simp only [Option.some_bind]
    rw [linearS, if_pos rfl]
    simp only [Option.some_bind]
    rw [linearS, if_pos rfl]
    simp only [Option.some_bind]
    rfl
  · rw [show b * numActions * hid = b * (numActions * hid) from by ring,
      Nat.mul_div_cancel_left _ hb]

/-- C6 witness: the concrete configuration with batch 1, 2 actions, 1 reward
category, hidden size 1, depth 1 on a 5 by 5 observation. -/
theorem i2a_forward_shape_law_witness :
    i2aForwardS [3, 5, 5] 2 1 1 1 1 = some ([1, 2], [1, 1]) ∧
    1 * 2 * 1 / 1 = 2 * 1 :=
  i2a_forward_shape_law 1 2 1 1 1 5 5 (by decide) (by decide) (by decide) (by decide)
    (by decide) (by decide) (by decide)

/-- C5 witness: the output equality at the concrete core, network, two
concrete action oracles and the concrete input batch. -/
theorem imagination_and_forward_independent_of_distil_sampling_witness :
    ICore.call {coreW with distil_act := fun _ => []} stateW =
      ICore.call {coreW with distil_act := fun _ => [0]} stateW ∧
    I2ANet.forward
        {netW with imagination := {netW.imagination with distil_act := fun _ => []}} stateW =
      I2ANet.forward
        {netW with imagination := {netW.imagination with distil_act := fun _ => [0]}} stateW :=
  imagination_and_forward_independent_of_distil_sampling coreW netW
    (fun _ => []) (fun _ => [0]) stateW

theorem gImStep_eval (state : GFlag) :
    gImStep state = (true, ⟨false, false⟩, ⟨false, false⟩) := rfl

theorem gImLoop_eval : ∀ (t : ℕ) (state : GFlag),
    gImLoop t state = (List.replicate t true,
      List.replicate t ⟨false, false⟩, List.replicate t ⟨false, false⟩) := by
  intro t
  induction t with
  | zero => intro state; rfl
  | succ t ih =>
    intro state
    simp only [gImLoop, gImStep_eval, ih, List.replicate_succ]

/-- C10: the flag-level run of the imagination loop inside `I2A.forward`
returns the two consumed parameter sets untouched (no statement of
`__call__` or `forward` assigns to them), queries the environment model with
a volatile (no-gradient-tracking) tensor at every one of the `num_rolouts`
steps, and every returned imagined state and reward is outside the
environment model's autograd graph, so no gradient flows from the forward
pass back into the environment model through the imagined rollout. -/
theorem forward_frame_and_no_grad_to_env_model {α β : Type} (envParams : α)
    (distilParams : β) (numRolouts : ℕ) (state : GFlag) :
    (gImaginationCall envParams distilParams numRolouts state).1 =
      (envParams, distilParams) ∧
    (gImaginationCall envParams distilParams numRolouts state).2.1 =
      List.replicate numRolouts true ∧
    (∀ g ∈ (gImaginationCall envParams distilParams numRolouts state).2.2.1,
      g.envGraph = false) ∧
    (∀ g ∈ (gImaginationCall envParams distilParams numRolouts state).2.2.2,
      g.envGraph = false) := by
  refine ⟨rfl, ?_, ?_, ?_⟩
  · show (gImLoop numRolouts state).1 = _
    rw [gImLoop_eval]
  · intro g hg
    rw [show (gImaginationCall envParams distilParams numRolouts state).2.2.1 =
      (gImLoop numRolouts state).2.1 from rfl, gImLoop_eval] at hg
    rw [List.eq_of_mem_replicate hg]
  · intro g hg
    rw [show (gImaginationCall envParams distilParams numRolouts state).2.2.2 =
      (gImLoop numRolouts state).2.2 from rfl, gImLoop_eval] at hg
    rw [List.eq_of_mem_replicate hg]

/-- C10 witness: the flag-level run at concrete parameter sets, depth 1 and
a fresh input state. -/
theorem forward_frame_and_no_grad_to_env_model_witness :
    (gImaginationCall (0 : ℕ) (1 : ℕ) 1 ⟨false, false⟩).1 = (0, 1) ∧
    (gImaginationCall (0 : ℕ) (1 : ℕ) 1 ⟨false, false⟩).2.1 = List.replicate 1 true ∧
    (∀ g ∈ (gImaginationCall (0 : ℕ) (1 : ℕ) 1 ⟨false, false⟩).2.2.1,
      g.envGraph = false) ∧
    (∀ g ∈ (gImaginationCall (0 : ℕ) (1 : ℕ) 1 ⟨false, false⟩).2.2.2,
      g.envGraph = false) :=
  forward_frame_and_no_grad_to_env_model 0 1 1 ⟨false, false⟩
